import Mathlib

/-!
# Verification of the product-detail-page storefront core

A shallow embedding, in Lean 4, of the behaviour-carrying parts of the
`case-pdp` repository:

* the product action state (`quantity`, `cartStatus`) from
  `ProductActionsContext` — quantity mutators, the simulated
  `handleAddToCart` lifecycle, and the events its timers generate;
* the quantity spinner's direct-input handler (`handleInputChange`), which
  guards `setQuantity` behind JavaScript's `parseInt`;
* the product data client `getProductBySku` from `src/lib/api.ts`, modelled
  over an abstract fetch outcome (transport failure, or a response with a
  status code and decode results for the two `response.json()` call sites);
* the pure text utilities `generateSlug` and `truncateText` from
  `src/utils/format.ts`, modelled over `List Char`.

JavaScript built-ins that the source leans on (`parseInt`,
`String.prototype.trim`, `String.prototype.toLowerCase`,
`String.prototype.normalize('NFD')`, `Array.prototype.lastIndexOf`) are
modelled explicitly below; each carries a comment stating the extent of the
model.  Machine arithmetic: the quantities involved are small integers, so
JavaScript numbers are modelled as `Int`/`Nat`; the single fractional
comparison in `truncateText` (`lostChars <= Math.max(3, availableLength * 0.3)`)
is modelled exactly by scaling both sides by 10.
-/

/-- The set of characters treated as whitespace by JavaScript's `\s` regex
class, `String.prototype.trim`, and `parseInt`'s leading-whitespace skip
(restricted to the characters that can plausibly appear here: ASCII
whitespace plus NBSP). -/
def jsWhitespace (c : Char) : Bool :=
  c = ' ' || c = '\t' || c = '\n' || c = '\r' || c = '\x0b' || c = '\x0c' || c = ' '

/-- `'0' ≤ c ≤ '9'`. -/
def isDigitChar (c : Char) : Bool :=
  0x30 ≤ c.toNat && c.toNat ≤ 0x39

/-- `'a' ≤ c ≤ 'z'`. -/
def isLowerAlpha (c : Char) : Bool :=
  0x61 ≤ c.toNat && c.toNat ≤ 0x7A

/-- Decimal digit value of a character, if it is a decimal digit. -/
def decDigitVal (c : Char) : Option Nat :=
  if isDigitChar c then some (c.toNat - 0x30) else none

/-- Hexadecimal digit value of a character, if it is a hex digit. -/
def hexDigitVal (c : Char) : Option Nat :=
  if isDigitChar c then some (c.toNat - 0x30)
  else if 0x61 ≤ c.toNat && c.toNat ≤ 0x66 then some (c.toNat - 0x61 + 10)
  else if 0x41 ≤ c.toNat && c.toNat ≤ 0x46 then some (c.toNat - 0x41 + 10)
  else none

/-- Accumulate the value of the maximal leading digit run, in the given
radix; `none` when the run is empty (mirrors `parseInt` returning `NaN`).
Characters after the first non-digit are ignored, as in `parseInt`. -/
def digitRunVal (radix : Nat) (dv : Char → Option Nat) : List Char → Option Nat → Option Nat
  | [], acc => acc
  | c :: cs, acc =>
    match dv c with
    | some d => digitRunVal radix dv cs (some ((acc.getD 0) * radix + d))
    | none => acc

/-- Model of JavaScript's global `parseInt(string)` with the radix argument
omitted: skip leading whitespace, read an optional sign, then either a
`0x`/`0X`-prefixed hexadecimal digit run or a decimal digit run; `none`
models `NaN`.  (Precision loss of doubles on astronomically long digit
strings is not modelled.) -/
def jsParseInt (s : String) : Option Int :=
  let l := s.data.dropWhile jsWhitespace
  let sign : Int := match l with
    | '-' :: _ => -1
    | _ => 1
  let l2 := match l with
    | '-' :: rest => rest
    | '+' :: rest => rest
    | rest => rest
  match l2 with
  | '0' :: x :: rest =>
    if x = 'x' || x = 'X' then
      (digitRunVal 16 hexDigitVal rest none).map (fun n => sign * (n : Int))
    else
      (digitRunVal 10 decDigitVal ('0' :: x :: rest) none).map (fun n => sign * (n : Int))
  | rest =>
    (digitRunVal 10 decDigitVal rest none).map (fun n => sign * (n : Int))

/-! ## Product action state: quantity -/

/-- `incrementQuantity` from `ProductActionsContext`:
`setQuantity(prev => Math.min(10, prev + 1))`. -/
def incrementQuantity (prev : Int) : Int :=
  min 10 (prev + 1)

/-- `decrementQuantity` from `ProductActionsContext`:
`setQuantity(prev => Math.max(1, prev - 1))`. -/
def decrementQuantity (prev : Int) : Int :=
  max 1 (prev - 1)

/-- `handleInputChange` from `QuantitySpinner`: parse the raw input with
`parseInt`; if the result is a number `≥ 1`, store it verbatim via
`setQuantity` (which does not clamp); otherwise leave the prior quantity
unchanged. -/
def handleInputChange (raw : String) (quantity : Int) : Int :=
  match jsParseInt raw with
  | some v => if 1 ≤ v then v else quantity
  | none => quantity

/-- The operations on the stored quantity reachable through the UI: the two
stepper buttons and the direct-input path of the quantity control. -/
inductive QuantityOp where
  | increment
  | decrement
  | inputSet (raw : String)
deriving DecidableEq

/-- Apply one quantity operation to the stored quantity. -/
def applyQuantityOp (q : Int) : QuantityOp → Int
  | .increment => incrementQuantity q
  | .decrement => decrementQuantity q
  | .inputSet raw => handleInputChange raw q

/-- Run a sequence of quantity operations from the initial stored value
`useState(1)`. -/
def runQuantityOps (ops : List QuantityOp) : Int :=
  ops.foldl applyQuantityOp 1

/-! ## Product action state: cart-submission status machine -/

/-- The four cart-submission status values (`CartStatus` in the source). -/
inductive CartStatus where
  | idle
  | loading
  | success
  | error
deriving DecidableEq

/-- State of the cart machine: the current status together with the number
of pending `setTimeout` callbacks of each kind.  `pendingResolve` counts
outstanding 1000 ms submission delays (each will set `success` or `error`);
`pendingRevert` counts outstanding revert-to-`idle` timers.  Timers are
never cancelled by the source, so counts can exceed one under reentrant
calls. -/
structure CartMachineState where
  status : CartStatus
  pendingResolve : Nat
  pendingRevert : Nat
deriving DecidableEq

/-- Initial state: `useState<CartStatus>('idle')`, no timers. -/
def initialCartState : CartMachineState :=
  { status := .idle, pendingResolve := 0, pendingRevert := 0 }

/-- The events that mutate `cartStatus`: invoking `handleAddToCart`
(synchronously sets `loading` and schedules a resolution), a pending 1000 ms
delay firing with outcome `ok` (`Math.random() > 0.2`), a pending revert
timer firing, and a direct call to the exposed `setCartStatus` mutator. -/
inductive CartEvent where
  | submitCall
  | resolveTimer (ok : Bool)
  | revertTimer
  | setStatusCall (s : CartStatus)
deriving DecidableEq

/-- One step of the cart machine.  `none` means the event is not enabled
(no pending timer of that kind).  Mirrors `handleAddToCart`: the resolution
and the revert assignments are unconditional writes (no check of the
current status), and each resolution schedules one revert. -/
def cartStep (st : CartMachineState) : CartEvent → Option CartMachineState
  | .submitCall =>
    some { status := .loading, pendingResolve := st.pendingResolve + 1,
           pendingRevert := st.pendingRevert }
  | .resolveTimer ok =>
    if st.pendingResolve = 0 then none
    else some { status := if ok then .success else .error,
                pendingResolve := st.pendingResolve - 1,
                pendingRevert := st.pendingRevert + 1 }
  | .revertTimer =>
    if st.pendingRevert = 0 then none
    else some { status := .idle, pendingResolve := st.pendingResolve,
                pendingRevert := st.pendingRevert - 1 }
  | .setStatusCall s =>
    some { st with status := s }

/-- A step through any exposed operation of the product action state. -/
def CartStepRel (s t : CartMachineState) : Prop :=
  ∃ e, cartStep s e = some t

/-- Reachability from the initial state through exposed operations. -/
def CartReachable (s : CartMachineState) : Prop :=
  Relation.ReflTransGen CartStepRel initialCartState s

/-- The status edges the specification lists as the only reachable ones
(`idle→loading→{success,error}→idle`); a step that leaves the status
unchanged is not a change of status and is also allowed. -/
def claimedEdge : CartStatus → CartStatus → Bool
  | .idle, .idle => true
  | .loading, .loading => true
  | .success, .success => true
  | .error, .error => true
  | .idle, .loading => true
  | .loading, .success => true
  | .loading, .error => true
  | .success, .idle => true
  | .error, .idle => true
  | _, _ => false

/-- A disciplined step: the status is mutated only through the
`handleAddToCart` lifecycle (no direct `setCartStatus`), and a submission is
only started while the status is `idle` (the UI control disables itself
while `loading` or `success`; the state component itself does not enforce
this). -/
def disciplinedStep (s t : CartMachineState) : Prop :=
  ∃ e, cartStep s e = some t ∧ (∀ c, e ≠ .setStatusCall c) ∧
    (e = .submitCall → s.status = .idle)

/-- Invariant of disciplined executions: timers and status move in
lock-step. -/
def cartInv (s : CartMachineState) : Prop :=
  (s.status = .idle ∧ s.pendingResolve = 0 ∧ s.pendingRevert = 0) ∨
  (s.status = .loading ∧ s.pendingResolve = 1 ∧ s.pendingRevert = 0) ∨
  ((s.status = .success ∨ s.status = .error) ∧ s.pendingResolve = 0 ∧ s.pendingRevert = 1)

/-! ## `handleAddToCart`: schedule of one invocation -/

/-- What one invocation of `handleAddToCart` does, as data: the
synchronously observable status write, the delay before the outcome
resolves, the outcome, and the delay and target of the auto-revert timer
scheduled by the outcome branch.  The draw `r` models `Math.random()`,
uniform on `[0,1)`. -/
structure SubmitSchedule where
  immediate : CartStatus
  resolveDelayMs : Nat
  outcome : CartStatus
  revertDelayMs : Nat
  revertTo : CartStatus
deriving DecidableEq

/-- The schedule produced by `handleAddToCart` for a draw `r` of
`Math.random()`: set `loading` synchronously; after 1000 ms the outcome is
`success` iff `r > 0.2`; a success schedules a 2000 ms revert to `idle`, an
error a 3000 ms revert to `idle`.  The draw is carried as a rational: every
IEEE double is a rational number, and `0.2` denotes `1/5` exactly here (the
double nearest `0.2` differs from `1/5` by under `2⁻⁵⁴`, which no other
double falls within). -/
def handleAddToCartSchedule (r : ℚ) : SubmitSchedule :=
  if r > 0.2 then
    { immediate := .loading, resolveDelayMs := 1000, outcome := .success,
      revertDelayMs := 2000, revertTo := .idle }
  else
    { immediate := .loading, resolveDelayMs := 1000, outcome := .error,
      revertDelayMs := 3000, revertTo := .idle }

/-! ## Product data client (`src/lib/api.ts`) -/

/-- The product record decoded from a 2xx body.  The client never inspects
the fields, so a representative subset suffices. -/
structure Product where
  sku : String
  name : String
  price : Int
deriving DecidableEq

/-- The error payload the backend sends with a 404
(`ProductNotFoundError`); `message` is `none` when absent from the JSON
(JavaScript `undefined`). -/
structure NotFoundBody where
  message : Option String
deriving DecidableEq

/-- `errorData.message || 'Produto não encontrado'`: JavaScript `||` falls
through on the falsy values `undefined` and `""`. -/
def jsOrDefault (m : Option String) (deflt : String) : String :=
  match m with
  | some s => if s = "" then deflt else s
  | none => deflt

/-- The `ApiError` value thrown by the client (name field omitted: it is
the constant `'ApiError'`). -/
structure ApiError where
  message : String
  status : Nat
  error : Option String
deriving DecidableEq

/-- Result of one invocation of `getProductBySku`: the returned product, or
the thrown `ApiError`.  The `catch` block re-throws `ApiError`s unchanged
and converts every other exception, so no other failure shape can escape. -/
inductive ApiResult where
  | ok (p : Product)
  | err (e : ApiError)
deriving DecidableEq

/-- The error built in the catch-all branch:
`new ApiError('Erro de conexão com o servidor', 500)`. -/
def connectionApiError : ApiError :=
  { message := "Erro de conexão com o servidor", status := 500, error := none }

/-- Abstract outcome of the single `fetch` call: a transport-level failure
(the promise rejects), or a response with a status code and the decode
results of the two possible `response.json()` calls (`none` models the
decode throwing). -/
inductive FetchOutcome where
  | networkFailure
  | response (status : Nat) (errorBody : Option NotFoundBody) (productBody : Option Product)
deriving DecidableEq

/-- `response.ok`: status in the inclusive range 200–299. -/
def responseOk (status : Nat) : Bool :=
  200 ≤ status && status ≤ 299

/-- `getProductBySku` from `src/lib/api.ts`, as a function of the fetch
outcome.  A failed `response.json()` throws a non-`ApiError` exception,
which the catch-all converts to `connectionApiError` — on the 404 branch as
well as on the 2xx branch. -/
def getProductBySku (f : FetchOutcome) : ApiResult :=
  match f with
  | .networkFailure => .err connectionApiError
  | .response status errorBody productBody =>
    if responseOk status then
      match productBody with
      | some p => .ok p
      | none => .err connectionApiError
    else if status = 404 then
      match errorBody with
      | some b =>
        .err { message := jsOrDefault b.message "Produto não encontrado",
               status := 404, error := some "Not Found" }
      | none => .err connectionApiError
    else
      .err { message := "Erro na API: " ++ toString status, status := status,
             error := none }

/-- The `NotFound` kind of the spec's taxonomy: the 404 branch's error. -/
def isNotFoundKind (e : ApiError) : Bool :=
  e.status = 404 && e.error = some "Not Found"

/-- The `ConnectionError` kind: the catch-all's fixed error value. -/
def isConnectionKind (e : ApiError) : Bool :=
  e = connectionApiError

/-- The `HttpError{status}` kind: the generic non-2xx branch's error. -/
def isHttpErrorKind (e : ApiError) : Bool :=
  e.message = "Erro na API: " ++ toString e.status && e.error = none

/-! ## Text utilities (`src/utils/format.ts`) -/

/-- `String.prototype.trim`: strip whitespace from both ends. -/
def jsTrim (l : List Char) : List Char :=
  ((l.dropWhile jsWhitespace).reverse.dropWhile jsWhitespace).reverse

/-- `Array`/`String.prototype.lastIndexOf` for a single character: the
largest index holding `c`, or `-1`. -/
def lastIndexOfChar (c : Char) : List Char → Int
  | [] => -1
  | a :: as =>
    let r := lastIndexOfChar c as
    if 0 ≤ r then r + 1
    else if a = c then 0 else -1

/-- `truncateText`'s local `const availableLength = maxLength - suffix.length`. -/
def truncAvailable (maxLength : Nat) (suffix : String) : Nat :=
  maxLength - suffix.data.length

/-- `truncateText`'s local `let truncated = text.slice(0, availableLength)`. -/
def truncRegion (text : String) (maxLength : Nat) (suffix : String) : List Char :=
  text.data.take (truncAvailable maxLength suffix)

/-- `truncateText`'s local `const lastSpaceIndex = truncated.lastIndexOf(' ')`. -/
def truncSpaceIdx (text : String) (maxLength : Nat) (suffix : String) : Int :=
  lastIndexOfChar ' ' (truncRegion text maxLength suffix)

/-- The value of `truncated` after the word-boundary adjustment in
`truncateText`: break at the last space when the index is positive, the
available region is longer than 10, and doing so loses at most
`max(3, availableLength * 0.3)` characters.  The fractional comparison
`lostChars <= Math.max(3, availableLength * 0.3)` is modelled exactly by
scaling both sides by 10 (`availableLength` is a string length, far below
any range where double rounding could move `availableLength * 0.3` across
an integer). -/
def truncBody (text : String) (maxLength : Nat) (suffix : String) : List Char :=
  if 0 < truncSpaceIdx text maxLength suffix ∧ 10 < truncAvailable maxLength suffix then
    if ((truncAvailable maxLength suffix : Int) - truncSpaceIdx text maxLength suffix) * 10 ≤
        max 30 ((truncAvailable maxLength suffix : Int) * 3) then
      (truncRegion text maxLength suffix).take (truncSpaceIdx text maxLength suffix).toNat
    else truncRegion text maxLength suffix
  else truncRegion text maxLength suffix

/-- `truncateText` from `src/utils/format.ts`. -/
def truncateText (text : String) (maxLength : Nat) (suffix : String) : String :=
  if text.data.length ≤ maxLength then text
  else if suffix.data ≠ [] && maxLength < suffix.data.length then
    ⟨text.data.take maxLength ++ suffix.data⟩
  else if suffix.data.isEmpty then ⟨jsTrim (text.data.take maxLength)⟩
  else ⟨jsTrim (truncBody text maxLength suffix) ++ suffix.data⟩

/-! ## `generateSlug` (`src/utils/format.ts`) -/

/-- Model of `String.prototype.toLowerCase` on the character ranges that
occur here: ASCII `A–Z` and the Latin-1 uppercase letters `À–Þ` (except
`×`) map down by 32; every other character is left unchanged.  The proofs
below rely only on `[a-z0-9-]` being fixed points, which holds for the full
Unicode mapping as well. -/
def jsLower (c : Char) : Char :=
  if 0x41 ≤ c.toNat && c.toNat ≤ 0x5A then Char.ofNat (c.toNat + 32)
  else if 0xC0 ≤ c.toNat && c.toNat ≤ 0xDE && c.toNat ≠ 0xD7 then Char.ofNat (c.toNat + 32)
  else c

/-- Canonical decomposition of the precomposed Latin-1 lowercase letters
into base letter plus combining mark. -/
def latinDecomp (c : Char) : List Char :=
  if c = 'à' then ['a', '̀'] else if c = 'á' then ['a', '́']
  else if c = 'â' then ['a', '̂'] else if c = 'ã' then ['a', '̃']
  else if c = 'ä' then ['a', '̈'] else if c = 'å' then ['a', '̊']
  else if c = 'ç' then ['c', '̧'] else if c = 'è' then ['e', '̀']
  else if c = 'é' then ['e', '́'] else if c = 'ê' then ['e', '̂']
  else if c = 'ë' then ['e', '̈'] else if c = 'ì' then ['i', '̀']
  else if c = 'í' then ['i', '́'] else if c = 'î' then ['i', '̂']
  else if c = 'ï' then ['i', '̈'] else if c = 'ñ' then ['n', '̃']
  else if c = 'ò' then ['o', '̀'] else if c = 'ó' then ['o', '́']
  else if c = 'ô' then ['o', '̂'] else if c = 'õ' then ['o', '̃']
  else if c = 'ö' then ['o', '̈'] else if c = 'ù' then ['u', '̀']
  else if c = 'ú' then ['u', '́'] else if c = 'û' then ['u', '̂']
  else if c = 'ü' then ['u', '̈'] else if c = 'ý' then ['y', '́']
  else if c = 'ÿ' then ['y', '̈']
  else [c]

/-- Model of `String.prototype.normalize('NFD')` at the character level,
restricted to the Latin-1 letters (other characters are left
undecomposed).  The proofs below rely only on characters below `U+00C0` —
in particular `[a-z0-9-]` — being fixed points, which holds for full NFD. -/
def nfdChar (c : Char) : List Char :=
  if c.toNat < 0xC0 then [c] else latinDecomp c

/-- The combining marks stripped by `replace(/[̀-ͯ]/g, '')`. -/
def isCombiningMark (c : Char) : Bool :=
  0x300 ≤ c.toNat && c.toNat ≤ 0x36F

/-- The character class `[a-z0-9\s-]` kept by
`replace(/[^a-z0-9\s-]/g, '')`. -/
def slugKeep (c : Char) : Bool :=
  isLowerAlpha c || isDigitChar c || jsWhitespace c || c = '-'

/-- Replace each maximal run of characters satisfying `p` by the single
character `r` (the semantics of `replace(/p+/g, r)`); `inRun` records
whether the previous character was part of a run. -/
def collapseRunsAux (p : Char → Bool) (r : Char) (inRun : Bool) : List Char → List Char
  | [] => []
  | c :: cs =>
    if p c then
      if inRun then collapseRunsAux p r true cs
      else r :: collapseRunsAux p r true cs
    else c :: collapseRunsAux p r false cs

/-- `replace(/p+/g, r)` on a whole list. -/
def collapseRuns (p : Char → Bool) (r : Char) (l : List Char) : List Char :=
  collapseRunsAux p r false l

/-- The hyphen test used by the run-collapsing and edge-stripping stages. -/
def isHyphen (c : Char) : Bool :=
  c = '-'

/-- `replace(/^-+|-+$/g, '')`: drop the leading and the trailing run of
hyphens. -/
def stripEdgeHyphens (l : List Char) : List Char :=
  ((l.dropWhile isHyphen).reverse.dropWhile isHyphen).reverse

/-- The first four stages of `generateSlug`: `toLowerCase()`,
`normalize('NFD')`, `replace(/[̀-ͯ]/g, '')` (strip combining marks), and
`replace(/[^a-z0-9\s-]/g, '')`. -/
def slugKept (text : String) : List Char :=
  (((text.data.map jsLower).flatMap nfdChar).filter
    (fun c => !isCombiningMark c)).filter slugKeep

/-- Stages five and six of `generateSlug`: `replace(/\s+/g, '-')` then the
collapse of hyphen runs to a single hyphen. -/
def slugCollapsed (text : String) : List Char :=
  collapseRuns isHyphen '-' (collapseRuns jsWhitespace '-' (slugKept text))

/-- `generateSlug` from `src/utils/format.ts`: lowercase, NFD-decompose,
strip combining marks, keep `[a-z0-9\s-]`, collapse whitespace runs to a
hyphen, collapse hyphen runs, strip edge hyphens (`replace(/^-+|-+$/g, '')`),
trim. -/
def generateSlug (text : String) : String :=
  ⟨jsTrim (stripEdgeHyphens (slugCollapsed text))⟩

/-- `[a-z0-9]`: the characters the slug regular expression allows inside a
group. -/
def slugAlpha (c : Char) : Bool :=
  isLowerAlpha c || isDigitChar c

/-- No two adjacent characters both satisfy `p`. -/
def chainOK (p : Char → Bool) : List Char → Bool
  | a :: b :: rest => (!(p a && p b)) && chainOK p (b :: rest)
  | _ => true

/-- Decidable form of the regular expression `^[a-z0-9]+(-[a-z0-9]+)*$`: a
nonempty string over `[a-z0-9-]` with no two adjacent hyphens and no hyphen
at either end — exactly the strings of one or more `[a-z0-9]+` groups
joined by single hyphens. -/
def matchesSlugRegex (l : List Char) : Bool :=
  !l.isEmpty && l.all (fun c => slugAlpha c || c = '-') &&
    chainOK (fun c => c = '-') l &&
    (match l.head? with | some c => c ≠ '-' | none => true) &&
    (match l.getLast? with | some c => c ≠ '-' | none => true)

/-! # Theorems -/

/-! ## Quantity state (C1, C5, C6) -/

theorem applyQuantityOp_ge_one (q : Int) (hq : 1 ≤ q) (op : QuantityOp) :
    1 ≤ applyQuantityOp q op := by
  cases op with
  | increment =>
    simp only [applyQuantityOp, incrementQuantity, min_def]
    split <;> omega
  | decrement =>
    simp only [applyQuantityOp, decrementQuantity, max_def]
    split <;> omega
  | inputSet raw =>
    simp only [applyQuantityOp, handleInputChange]
    cases jsParseInt raw with
    | none => exact hq
    | some v =>
      dsimp only
      split <;> omega

theorem applyQuantityOp_le_ten (q : Int) (hq : q ≤ 10) (op : QuantityOp)
    (hop : ∀ raw, op ≠ .inputSet raw) : applyQuantityOp q op ≤ 10 := by
  cases op with
  | increment => exact min_le_left _ _
  | decrement => exact max_le (by norm_num) (by omega)
  | inputSet raw => exact absurd rfl (hop raw)

theorem foldl_applyQuantityOp_ge_one :
    ∀ (ops : List QuantityOp) (q : Int), 1 ≤ q → 1 ≤ ops.foldl applyQuantityOp q
  | [], _, hq => hq
  | op :: ops, q, hq =>
    foldl_applyQuantityOp_ge_one ops _ (applyQuantityOp_ge_one q hq op)

theorem foldl_applyQuantityOp_le_ten :
    ∀ (ops : List QuantityOp) (q : Int), q ≤ 10 →
      (∀ raw, QuantityOp.inputSet raw ∉ ops) → ops.foldl applyQuantityOp q ≤ 10
  | [], _, hq, _ => hq
  | op :: ops, q, hq, hops =>
    foldl_applyQuantityOp_le_ten ops _
      (applyQuantityOp_le_ten q hq op
        (fun raw h => hops raw (by rw [← h]; exact List.mem_cons_self op ops)))
      (fun raw hmem => hops raw (List.mem_cons_of_mem _ hmem))

/-- C1 (counterexample): the direct-input path of the quantity control
accepts the string `"11"` (it parses as an integer `≥ 1`) and stores `11`
verbatim, so after the single operation `inputSet "11"` the stored quantity
is `11`, outside the claimed range `[1, 10]`. -/
theorem C1_counterexample :
    runQuantityOps [QuantityOp.inputSet "11"] = 11 ∧
      ¬(runQuantityOps [QuantityOp.inputSet "11"] ≤ 10) := by
  constructor
  · decide
  · decide

/-- C1 (amended): starting from the initial value 1, every sequence of
quantity operations (increments, decrements, and direct inputs the control
accepts) keeps the stored quantity `≥ 1` at every observable point; the
upper bound 10 additionally holds at every observable point of every
sequence that uses only the stepper operations. -/
theorem C1_amended (ops : List QuantityOp) :
    1 ≤ runQuantityOps ops ∧
      ((∀ raw, QuantityOp.inputSet raw ∉ ops) → runQuantityOps ops ≤ 10) :=
  ⟨foldl_applyQuantityOp_ge_one ops 1 le_rfl,
   fun h => foldl_applyQuantityOp_le_ten ops 1 (by norm_num) h⟩

theorem C1_amended_witness :
    1 ≤ runQuantityOps [QuantityOp.increment, QuantityOp.decrement] ∧
      runQuantityOps [QuantityOp.increment, QuantityOp.decrement] ≤ 10 :=
  ⟨(C1_amended _).1,
   (C1_amended [QuantityOp.increment, QuantityOp.decrement]).2
     (fun raw h => by simp at h)⟩

/-- C5: `incrementQuantity` stores exactly `min(10, q+1)` and
`decrementQuantity` stores exactly `max(1, q-1)`; repeated increments
starting from 1 never produce a value above 10 (nor below 1), and repeated
decrements from any starting value `≥ 1` never produce a value below 1. -/
theorem C5_stepper_minmax :
    ∀ q : Int, incrementQuantity q = min 10 (q + 1) ∧
      decrementQuantity q = max 1 (q - 1) ∧
      (∀ n : Nat, 1 ≤ incrementQuantity^[n] 1 ∧ incrementQuantity^[n] 1 ≤ 10) ∧
      (∀ (n : Nat) (q0 : Int), 1 ≤ q0 → 1 ≤ decrementQuantity^[n] q0) := by
  intro q
  refine ⟨rfl, rfl, ?_, ?_⟩
  · intro n
    induction n with
    | zero => simp
    | succ n ih =>
      rw [Function.iterate_succ_apply']
      simp only [incrementQuantity, min_def]
      split <;> omega
  · intro n
    induction n with
    | zero => intro q0 h; simpa using h
    | succ n ih =>
      intro q0 h
      rw [Function.iterate_succ_apply']
      have hn := ih q0 h
      simp only [decrementQuantity, max_def]
      split <;> omega

theorem C5_stepper_minmax_witness :
    1 ≤ decrementQuantity^[3] 1 :=
  (C5_stepper_minmax 0).2.2.2 3 1 (by norm_num)

/-- C6: on the direct-input path, an input whose `parseInt` value is `≥ 1`
is stored verbatim (no clamping to 10), and an input with no `parseInt`
value (`NaN`) or a value `< 1` is rejected, leaving the prior quantity
unchanged. -/
theorem C6_direct_input (raw : String) (q : Int) :
    (∀ v : Int, jsParseInt raw = some v → 1 ≤ v → handleInputChange raw q = v) ∧
    (∀ v : Int, jsParseInt raw = some v → v < 1 → handleInputChange raw q = q) ∧
    (jsParseInt raw = none → handleInputChange raw q = q) := by
  unfold handleInputChange
  refine ⟨?_, ?_, ?_⟩
  · intro v hv h1
    rw [hv]
    simp only [if_pos h1]
  · intro v hv h1
    rw [hv]
    simp only [if_neg (by omega : ¬(1 : Int) ≤ v)]
  · intro hv
    rw [hv]

theorem C6_direct_input_witness :
    handleInputChange "11" 3 = 11 ∧ handleInputChange "0" 3 = 3 ∧
      handleInputChange "abc" 3 = 3 :=
  ⟨(C6_direct_input "11" 3).1 11 (by decide) (by decide),
   (C6_direct_input "0" 3).2.1 0 (by decide) (by decide),
   (C6_direct_input "abc" 3).2.2 (by decide)⟩

/-! ## Product data client (C4, C9) -/

/-- C9: every failure of `getProductBySku` is an `ApiError` value; transport
failures and body-decode failures after a 2xx response are thrown with the
fixed message `'Erro de conexão com o servidor'` and numeric status 500, so
by its `status` field such a failure is indistinguishable from the error
thrown for a genuine HTTP 500 backend response. -/
theorem C9_connection_error_shape :
    (∀ f, (∃ p, getProductBySku f = .ok p) ∨ (∃ e, getProductBySku f = .err e)) ∧
    getProductBySku .networkFailure = .err connectionApiError ∧
    (∀ status eb, responseOk status = true →
        getProductBySku (.response status eb none) = .err connectionApiError) ∧
    connectionApiError.message = "Erro de conexão com o servidor" ∧
    connectionApiError.status = 500 ∧
    (∃ e, getProductBySku (.response 500 none none) = .err e ∧
        e.status = connectionApiError.status) := by
  refine ⟨?_, rfl, ?_, rfl, rfl, ?_⟩
  · intro f
    cases h : getProductBySku f with
    | ok p => exact Or.inl ⟨p, rfl⟩
    | err e => exact Or.inr ⟨e, rfl⟩
  · intro status eb hok
    simp only [getProductBySku, hok, if_true]
  · exact ⟨{ message := "Erro na API: 500", status := 500, error := none }, by decide⟩

theorem C9_connection_error_shape_witness :
    getProductBySku (.response 200 none none) = .err connectionApiError :=
  C9_connection_error_shape.2.2.1 200 none (by decide)

/-- C4 (counterexample): a 404 response whose error body fails to decode is
normalized by the catch-all into the `ConnectionError` value (status 500),
not into the `NotFound` kind — so "NotFound when the backend responds 404"
does not hold for every invocation. -/
theorem C4_counterexample :
    getProductBySku (.response 404 none none) = .err connectionApiError ∧
      isNotFoundKind connectionApiError = false ∧
      isConnectionKind connectionApiError = true := by
  refine ⟨by decide, by decide, by decide⟩

/-- C4 (amended): every invocation either returns the decoded product (2xx
with a valid body) or fails with exactly one of the three error kinds;
`NotFound` is produced exactly when the backend responds 404 *with a
decodable error body* (a 404 whose body fails to decode is normalized to
`ConnectionError`); `HttpError{status}` is produced for any other non-2xx
response; `ConnectionError` for transport-level failures and body-decode
failures after a 2xx response.  No raw transport exception escapes: the
result is always an `ApiResult`. -/
theorem C4_amended (f : FetchOutcome) :
    ((∃ p, getProductBySku f = .ok p) ∨
      (∃ e, getProductBySku f = .err e ∧
        (isNotFoundKind e || isConnectionKind e || isHttpErrorKind e) = true)) ∧
    (∀ s eb pb p, f = .response s eb pb → getProductBySku f = .ok p →
        responseOk s = true ∧ pb = some p) ∧
    (∀ eb pb b, f = .response 404 eb pb → eb = some b →
        ∃ e, getProductBySku f = .err e ∧ isNotFoundKind e = true) ∧
    (∀ pb, f = .response 404 none pb → getProductBySku f = .err connectionApiError) ∧
    (∀ s eb pb, f = .response s eb pb → responseOk s = false → s ≠ 404 →
        ∃ e, getProductBySku f = .err e ∧ e.status = s ∧ isHttpErrorKind e = true) ∧
    (f = .networkFailure → getProductBySku f = .err connectionApiError) ∧
    (∀ s eb, f = .response s eb none → responseOk s = true →
        getProductBySku f = .err connectionApiError) := by
  refine ⟨?_, ?_, ?_, ?_, ?_, ?_, ?_⟩
  · cases f with
    | networkFailure => exact Or.inr ⟨connectionApiError, rfl, by decide⟩
    | response s eb pb =>
      by_cases hok : responseOk s = true
      · cases pb with
        | some p => exact Or.inl ⟨p, by simp [getProductBySku, hok]⟩
        | none => exact Or.inr ⟨connectionApiError, by simp [getProductBySku, hok], by decide⟩
      · by_cases h404 : s = 404
        · subst h404
          cases eb with
          | some b =>
            refine Or.inr ⟨⟨jsOrDefault b.message "Produto não encontrado", 404,
              some "Not Found"⟩, by simp [getProductBySku, hok], ?_⟩
            simp [isNotFoundKind]
          | none =>
            exact Or.inr ⟨connectionApiError, by simp [getProductBySku, hok], by decide⟩
        · refine Or.inr ⟨⟨"Erro na API: " ++ toString s, s, none⟩,
            by simp [getProductBySku, hok, h404], ?_⟩
          simp [isNotFoundKind, isConnectionKind, isHttpErrorKind]
  · rintro s eb pb p rfl hp
    by_cases hok : responseOk s = true
    · cases pb with
      | some p2 =>
        simp only [getProductBySku, hok, if_true] at hp
        cases hp
        exact ⟨hok, rfl⟩
      | none => simp [getProductBySku, hok] at hp
    · simp only [getProductBySku, Bool.not_eq_true] at hp
      rw [if_neg (by simp [hok])] at hp
      split at hp <;> [skip; exact absurd hp (by simp)]
      split at hp <;> exact absurd hp (by simp)
  · rintro eb pb b rfl rfl
    refine ⟨⟨jsOrDefault b.message "Produto não encontrado", 404, some "Not Found"⟩, ?_,
      by simp [isNotFoundKind]⟩
    have h404 : responseOk 404 = false := by decide
    simp [getProductBySku, h404]
  · rintro pb rfl
    have h404 : responseOk 404 = false := by decide
    simp [getProductBySku, h404]
  · rintro s eb pb rfl hok h404
    refine ⟨⟨"Erro na API: " ++ toString s, s, none⟩,
      by simp [getProductBySku, hok, h404], rfl, ?_⟩
    simp [isHttpErrorKind]
  · rintro rfl
    rfl
  · rintro s eb rfl hok
    simp [getProductBySku, hok]

theorem C4_amended_witness :
    (∃ e, getProductBySku (.response 404 (some { message := some "sumiu" }) none) =
        .err e ∧ isNotFoundKind e = true) ∧
    (∃ e, getProductBySku (.response 503 none none) = .err e ∧ e.status = 503 ∧
        isHttpErrorKind e = true) :=
  ⟨(C4_amended _).2.2.1 (some { message := some "sumiu" }) none { message := some "sumiu" }
      rfl rfl,
   (C4_amended (.response 503 none none)).2.2.2.2.1 503 none none rfl
      (by decide) (by decide)⟩

/-! ## `truncateText` (C8, C10) -/

theorem jsTrim_length_le (l : List Char) : (jsTrim l).length ≤ l.length := by
  unfold jsTrim
  calc ((l.dropWhile jsWhitespace).reverse.dropWhile jsWhitespace).reverse.length
      = ((l.dropWhile jsWhitespace).reverse.dropWhile jsWhitespace).length :=
        List.length_reverse _
    _ ≤ (l.dropWhile jsWhitespace).reverse.length :=
        (List.dropWhile_suffix _).sublist.length_le
    _ = (l.dropWhile jsWhitespace).length := List.length_reverse _
    _ ≤ l.length := (List.dropWhile_suffix _).sublist.length_le

theorem truncRegion_length_le (text : String) (maxLength : Nat) (suffix : String) :
    (truncRegion text maxLength suffix).length ≤ truncAvailable maxLength suffix := by
  unfold truncRegion
  rw [List.length_take]
  exact min_le_left _ _

theorem truncBody_length_le (text : String) (maxLength : Nat) (suffix : String) :
    (truncBody text maxLength suffix).length ≤ truncAvailable maxLength suffix := by
  unfold truncBody
  split
  · split
    · calc ((truncRegion text maxLength suffix).take
            (truncSpaceIdx text maxLength suffix).toNat).length
          ≤ (truncRegion text maxLength suffix).length :=
            (List.take_sublist _ _).length_le
        _ ≤ _ := truncRegion_length_le text maxLength suffix
    · exact truncRegion_length_le text maxLength suffix
  · exact truncRegion_length_le text maxLength suffix

theorem string_data_ne_of_ne_empty (s : String) (h : s ≠ "") : s.data ≠ [] := by
  intro hd
  apply h
  cases s with
  | mk d => cases hd; rfl

theorem truncateText_length_le (text : String) (maxLength : Nat) (suffix : String)
    (hs : suffix ≠ "") (hle : suffix.length ≤ maxLength) :
    (truncateText text maxLength suffix).length ≤ maxLength := by
  have hsd : suffix.data ≠ [] := string_data_ne_of_ne_empty suffix hs
  have hld : suffix.data.length ≤ maxLength := hle
  unfold truncateText
  split
  · next h => exact h
  · rw [if_neg (by simp [Nat.not_lt]; exact fun _ => hle), if_neg (by simp [hsd])]
    show (jsTrim (truncBody text maxLength suffix) ++ suffix.data).length ≤ maxLength
    rw [List.length_append]
    have h1 := jsTrim_length_le (truncBody text maxLength suffix)
    have h2 := truncBody_length_le text maxLength suffix
    have h3 : truncAvailable maxLength suffix = maxLength - suffix.data.length := rfl
    omega

/-- C10: for every text, every maxLength, and every non-empty suffix with
`suffix.length ≤ maxLength`, `truncateText` returns a string of length at
most `maxLength`: the word-boundary break and the trailing trim can only
shorten the kept region. -/
theorem C10_truncate_length (text : String) (maxLength : Nat) (suffix : String)
    (hs : suffix ≠ "") (hle : suffix.length ≤ maxLength) :
    (truncateText text maxLength suffix).length ≤ maxLength :=
  truncateText_length_le text maxLength suffix hs hle

theorem C10_truncate_length_witness :
    (truncateText "Hello world this is a test" 13 "...").length ≤ 13 :=
  C10_truncate_length "Hello world this is a test" 13 "..." (by decide) (by decide)

/-- C8 (counterexample): at `text = "ab cdefgh"`, `maxLength = 8`,
`suffix = "..."` the available region is 5, the last space sits at index 2,
and breaking there would discard 3 ≤ max(3, 0.3·5) characters, so the claim
prescribes the word-boundary break (result `"ab..."`); the code only breaks
when the available region exceeds 10 and returns `"ab cd..."`.  Moreover at
`text = "aaaa bbbb cccc dddd"`, `maxLength = 14`, `suffix = ".."` the
result `"aaaa bbbb.."` has length 11 ≠ 14, refuting "returns a prefix of
length maxLength". -/
theorem C8_counterexample :
    truncateText "ab cdefgh" 8 "..." = "ab cd..." ∧
    truncAvailable 8 "..." = 5 ∧
    truncSpaceIdx "ab cdefgh" 8 "..." = 2 ∧
    ((5 : Int) - 2) * 10 ≤ max 30 ((5 : Int) * 3) ∧
    truncateText "ab cdefgh" 8 "..." ≠ "ab..." ∧
    truncateText "aaaa bbbb cccc dddd" 14 ".." = "aaaa bbbb.." ∧
    (truncateText "aaaa bbbb cccc dddd" 14 "..").length ≠ 14 := by
  refine ⟨by decide, by decide, by decide, by decide, by decide, by decide, by decide⟩

/-- C8 (amended): for `text.length > maxLength` and a non-empty suffix with
`suffix.length ≤ maxLength`, `truncateText` returns the trimmed kept region
followed by the suffix, of total length at most `maxLength` (not always
exactly `maxLength`); the kept region is the prefix of `availableLength`
characters, broken at the last space exactly when that index is positive,
`availableLength > 10`, and the break discards at most
`max(3, 0.3 · availableLength)` characters. -/
theorem C8_amended (text : String) (maxLength : Nat) (suffix : String)
    (hgt : maxLength < text.length) (hs : suffix ≠ "") (hle : suffix.length ≤ maxLength) :
    suffix.data.IsSuffix (truncateText text maxLength suffix).data ∧
    (truncateText text maxLength suffix).length ≤ maxLength ∧
    ((0 < truncSpaceIdx text maxLength suffix ∧ 10 < truncAvailable maxLength suffix ∧
        ((truncAvailable maxLength suffix : Int) - truncSpaceIdx text maxLength suffix) * 10 ≤
          max 30 ((truncAvailable maxLength suffix : Int) * 3)) →
      (truncateText text maxLength suffix).data =
        jsTrim ((truncRegion text maxLength suffix).take
          (truncSpaceIdx text maxLength suffix).toNat) ++ suffix.data) ∧
    (¬(0 < truncSpaceIdx text maxLength suffix ∧ 10 < truncAvailable maxLength suffix ∧
        ((truncAvailable maxLength suffix : Int) - truncSpaceIdx text maxLength suffix) * 10 ≤
          max 30 ((truncAvailable maxLength suffix : Int) * 3)) →
      (truncateText text maxLength suffix).data =
        jsTrim (truncRegion text maxLength suffix) ++ suffix.data) := by
  have hsd : suffix.data ≠ [] := string_data_ne_of_ne_empty suffix hs
  have hld : suffix.data.length ≤ maxLength := hle
  have hgt2 : ¬ text.data.length ≤ maxLength := by
    have : maxLength < text.data.length := hgt
    omega
  have hmain : (truncateText text maxLength suffix).data =
      jsTrim (truncBody text maxLength suffix) ++ suffix.data := by
    unfold truncateText
    rw [if_neg hgt2, if_neg (by simp [Nat.not_lt]; exact fun _ => hle), if_neg (by simp [hsd])]
  refine ⟨?_, truncateText_length_le text maxLength suffix hs hle, ?_, ?_⟩
  · rw [hmain]
    exact List.suffix_append _ _
  · intro hc
    rw [hmain]
    unfold truncBody
    rw [if_pos ⟨hc.1, hc.2.1⟩, if_pos hc.2.2]
  · intro hc
    rw [hmain]
    unfold truncBody
    by_cases h1 : 0 < truncSpaceIdx text maxLength suffix ∧ 10 < truncAvailable maxLength suffix
    · rw [if_pos h1, if_neg (fun hb => hc ⟨h1.1, h1.2, hb⟩)]
    · rw [if_neg h1]

theorem C8_amended_witness :
    (truncateText "ab cdefgh" 8 "...").data =
      jsTrim (truncRegion "ab cdefgh" 8 "...") ++ "...".data :=
  (C8_amended "ab cdefgh" 8 "..." (by decide) (by decide) (by decide)).2.2.2
    (by decide)

/-! ## Cart-submission status machine (C2, C3) -/

theorem disciplinedStep_preserves (s t : CartMachineState) (hinv : cartInv s)
    (hstep : disciplinedStep s t) :
    cartInv t ∧ claimedEdge s.status t.status = true := by
  obtain ⟨e, he, hnotset, hsub⟩ := hstep
  cases e with
  | submitCall =>
    have hidle : s.status = .idle := hsub rfl
    simp only [cartStep] at he
    injection he with he
    subst he
    rcases hinv with ⟨h1, h2, h3⟩ | ⟨h1, h2, h3⟩ | ⟨h1, h2, h3⟩
    · exact ⟨Or.inr (Or.inl ⟨rfl, by simp [h2], by simp [h3]⟩), by rw [hidle]; rfl⟩
    · rw [hidle] at h1; cases h1
    · rcases h1 with h1 | h1 <;> (rw [hidle] at h1; cases h1)
  | resolveTimer ok =>
    simp only [cartStep] at he
    split at he
    · cases he
    · next hn =>
      injection he with he
      subst he
      rcases hinv with ⟨h1, h2, h3⟩ | ⟨h1, h2, h3⟩ | ⟨h1, h2, h3⟩
      · exact absurd h2 hn
      · refine ⟨Or.inr (Or.inr ⟨?_, by simp [h2], by simp [h3]⟩), ?_⟩
        · cases ok
          · exact Or.inr rfl
          · exact Or.inl rfl
        · rw [h1]; cases ok <;> rfl
      · exact absurd h2 hn
  | revertTimer =>
    simp only [cartStep] at he
    split at he
    · cases he
    · next hn =>
      injection he with he
      subst he
      rcases hinv with ⟨h1, h2, h3⟩ | ⟨h1, h2, h3⟩ | ⟨h1, h2, h3⟩
      · exact absurd h3 hn
      · exact absurd h3 hn
      · refine ⟨Or.inl ⟨rfl, by simp [h2], by simp [h3]⟩, ?_⟩
        rcases h1 with h1 | h1 <;> (rw [h1]; rfl)
  | setStatusCall c =>
    exact absurd rfl (hnotset c)

theorem cartReachable_inv (s : CartMachineState)
    (h : Relation.ReflTransGen disciplinedStep initialCartState s) : cartInv s := by
  induction h with
  | refl => exact Or.inl ⟨rfl, rfl, rfl⟩
  | tail _ hstep ih => exact (disciplinedStep_preserves _ _ ih hstep).1

/-- C2 (counterexample): the status edges are not confined to
`idle→loading→{success,error}→idle` under the operations the product action
state exposes.  Two reachable violations: the exposed `setCartStatus`
mutator moves `idle` directly to `success`, and invoking `handleAddToCart`
again while the status is `success` (the state component has no reentrancy
guard) moves `success` to `loading`. -/
theorem C2_counterexample :
    CartReachable { status := .success, pendingResolve := 0, pendingRevert := 1 } ∧
    CartStepRel { status := .success, pendingResolve := 0, pendingRevert := 1 }
      { status := .loading, pendingResolve := 1, pendingRevert := 1 } ∧
    claimedEdge .success .loading = false ∧
    CartStepRel initialCartState { status := .success, pendingResolve := 0, pendingRevert := 0 } ∧
    claimedEdge .idle .success = false := by
  refine ⟨?_, ⟨.submitCall, by decide⟩, by decide, ⟨.setStatusCall .success, by decide⟩,
    by decide⟩
  have step1 : CartStepRel initialCartState
      { status := .loading, pendingResolve := 1, pendingRevert := 0 } :=
    ⟨.submitCall, by decide⟩
  have step2 : CartStepRel { status := .loading, pendingResolve := 1, pendingRevert := 0 }
      { status := .success, pendingResolve := 0, pendingRevert := 1 } :=
    ⟨.resolveTimer true, by decide⟩
  exact Relation.ReflTransGen.tail
    (Relation.ReflTransGen.tail Relation.ReflTransGen.refl step1) step2

/-- C2 (amended): when the status is mutated only through the
`handleAddToCart` lifecycle (no direct `setCartStatus` call) and a
submission is only started while the status is `idle` (as the UI control
enforces by disabling itself), every reachable transition keeps the status
unchanged or follows one of the edges `idle→loading`, `loading→success`,
`loading→error`, `success→idle`, `error→idle`. -/
theorem C2_amended (s t : CartMachineState)
    (hreach : Relation.ReflTransGen disciplinedStep initialCartState s)
    (hstep : disciplinedStep s t) :
    claimedEdge s.status t.status = true :=
  (disciplinedStep_preserves s t (cartReachable_inv s hreach) hstep).2

theorem C2_amended_witness :
    claimedEdge initialCartState.status
      ({ status := .loading, pendingResolve := 1, pendingRevert := 0 } : CartMachineState).status
      = true :=
  C2_amended initialCartState { status := .loading, pendingResolve := 1, pendingRevert := 0 }
    Relation.ReflTransGen.refl
    ⟨.submitCall, by decide, fun c h => CartEvent.noConfusion h, fun _ => rfl⟩

/-- C3: `handleAddToCart` sets the status to `loading` synchronously; the
outcome resolves after a fixed 1000 ms delay and is `success` exactly when
the uniform draw exceeds 1/5 (`Math.random() > 0.2`) — an event of measure
0.8 under the uniform distribution on `[0,1)` — with a success scheduling a
2000 ms auto-revert to `idle` and an error a 3000 ms auto-revert to
`idle`. -/
theorem C3_submit_schedule :
    (∀ r : ℚ, (handleAddToCartSchedule r).immediate = .loading ∧
      (handleAddToCartSchedule r).resolveDelayMs = 1000 ∧
      ((handleAddToCartSchedule r).outcome = .success ↔ 1/5 < r) ∧
      (((handleAddToCartSchedule r).outcome = .success ∧
          (handleAddToCartSchedule r).revertDelayMs = 2000) ∨
        ((handleAddToCartSchedule r).outcome = .error ∧
          (handleAddToCartSchedule r).revertDelayMs = 3000)) ∧
      (handleAddToCartSchedule r).revertTo = .idle) ∧
    MeasureTheory.volume {x : ℝ | x ∈ Set.Ico (0 : ℝ) 1 ∧ 1/5 < x} =
      ENNReal.ofReal 0.8 := by
  constructor
  · intro r
    unfold handleAddToCartSchedule
    by_cases h : r > 0.2
    · rw [if_pos h]
      have h5 : (1 : ℚ)/5 < r := by
        rw [show (0.2 : ℚ) = 1/5 by norm_num] at h
        exact h
      exact ⟨rfl, rfl, by simpa using h5, Or.inl ⟨rfl, rfl⟩, rfl⟩
    · rw [if_neg h]
      refine ⟨rfl, rfl, ?_, Or.inr ⟨rfl, rfl⟩, rfl⟩
      constructor
      · intro hc
        cases hc
      · intro h5
        exact absurd (by rw [show (0.2 : ℚ) = 1/5 by norm_num]; exact h5) h
  · have hset : {x : ℝ | x ∈ Set.Ico (0 : ℝ) 1 ∧ 1/5 < x} = Set.Ioo (1/5 : ℝ) 1 := by
      ext x
      simp only [Set.mem_setOf_eq, Set.mem_Ico, Set.mem_Ioo]
      constructor
      · rintro ⟨⟨_, h1⟩, h2⟩
        exact ⟨h2, h1⟩
      · rintro ⟨h2, h1⟩
        exact ⟨⟨by linarith, h1⟩, h2⟩
    rw [hset, Real.volume_Ioo]
    norm_num

/-! ## `generateSlug` (C7) -/

theorem chainOK_tail (p : Char → Bool) (a : Char) (l : List Char)
    (h : chainOK p (a :: l) = true) : chainOK p l = true := by
  cases l with
  | nil => rfl
  | cons b rest =>
    unfold chainOK at h
    rw [Bool.and_eq_true] at h
    exact h.2

theorem chainOK_append_right (p : Char → Bool) :
    ∀ (s t : List Char), chainOK p (s ++ t) = true → chainOK p t = true
  | [], _, h => h
  | a :: s, t, h => chainOK_append_right p s t (chainOK_tail p a (s ++ t) h)

theorem chainOK_append_left (p : Char → Bool) :
    ∀ (s t : List Char), chainOK p (s ++ t) = true → chainOK p s = true
  | [], _, _ => rfl
  | [_], _, _ => rfl
  | a :: b :: s, t, h => by
    have h2 : chainOK p (a :: b :: (s ++ t)) = true := h
    unfold chainOK at h2 ⊢
    rw [Bool.and_eq_true] at h2 ⊢
    exact ⟨h2.1, chainOK_append_left p (b :: s) t h2.2⟩

theorem head_dropWhile_not (p : Char → Bool) :
    ∀ (l : List Char) (d : Char), (l.dropWhile p).head? = some d → p d = false
  | [], _, h => by cases h
  | c :: cs, d, h => by
    rw [List.dropWhile_cons] at h
    by_cases hc : p c = true
    · rw [if_pos hc] at h
      exact head_dropWhile_not p cs d h
    · rw [if_neg hc] at h
      cases h
      simpa using hc

theorem dropWhile_id_of_head (p : Char → Bool) (l : List Char)
    (h : ∀ d, l.head? = some d → p d = false) : l.dropWhile p = l := by
  cases l with
  | nil => rfl
  | cons c cs => simp [List.dropWhile_cons, h c rfl]

theorem dropWhile_id_of_all (p : Char → Bool) (l : List Char)
    (h : ∀ c ∈ l, p c = false) : l.dropWhile p = l := by
  cases l with
  | nil => rfl
  | cons c cs => simp [List.dropWhile_cons, h c (List.mem_cons_self c cs)]

theorem jsTrim_id_of_no_ws (l : List Char) (h : ∀ c ∈ l, jsWhitespace c = false) :
    jsTrim l = l := by
  unfold jsTrim
  rw [dropWhile_id_of_all _ l h,
    dropWhile_id_of_all _ l.reverse (fun c hc => h c (List.mem_reverse.mp hc))]
  exact List.reverse_reverse l

theorem mem_jsTrim (l : List Char) (c : Char) (h : c ∈ jsTrim l) : c ∈ l := by
  unfold jsTrim at h
  rw [List.mem_reverse] at h
  have h2 := (List.dropWhile_suffix _).sublist.subset h
  rw [List.mem_reverse] at h2
  exact (List.dropWhile_suffix _).sublist.subset h2

theorem collapseRunsAux_mem (p : Char → Bool) (r : Char) :
    ∀ (l : List Char) (b : Bool) (c : Char), c ∈ collapseRunsAux p r b l →
      c = r ∨ (c ∈ l ∧ p c = false)
  | [], _, _, h => by cases h
  | a :: l, b, c, h => by
    unfold collapseRunsAux at h
    by_cases hp : p a = true
    · rw [if_pos hp] at h
      cases b with
      | true =>
        simp only [if_pos] at h
        rcases collapseRunsAux_mem p r l true c h with h1 | h2
        · exact Or.inl h1
        · exact Or.inr ⟨List.mem_cons_of_mem _ h2.1, h2.2⟩
      | false =>
        simp only [Bool.false_eq_true, if_false] at h
        rcases List.mem_cons.mp h with h1 | h1
        · exact Or.inl h1
        · rcases collapseRunsAux_mem p r l true c h1 with h2 | h2
          · exact Or.inl h2
          · exact Or.inr ⟨List.mem_cons_of_mem _ h2.1, h2.2⟩
    · rw [if_neg hp] at h
      rcases List.mem_cons.mp h with h1 | h1
      · subst h1
        exact Or.inr ⟨List.mem_cons_self _ _, by simpa using hp⟩
      · rcases collapseRunsAux_mem p r l false c h1 with h2 | h2
        · exact Or.inl h2
        · exact Or.inr ⟨List.mem_cons_of_mem _ h2.1, h2.2⟩

theorem collapseRunsAux_id (p : Char → Bool) (r : Char) :
    ∀ (l : List Char) (b : Bool), (∀ c ∈ l, p c = false) →
      collapseRunsAux p r b l = l
  | [], _, _ => rfl
  | a :: l, b, h => by
    unfold collapseRunsAux
    rw [if_neg (by simp [h a (List.mem_cons_self a l)])]
    rw [collapseRunsAux_id p r l false (fun c hc => h c (List.mem_cons_of_mem _ hc))]

theorem collapseRunsAux_cons_pos_true (p : Char → Bool) (r c : Char) (cs : List Char)
    (hc : p c = true) :
    collapseRunsAux p r true (c :: cs) = collapseRunsAux p r true cs := by
  conv_lhs => unfold collapseRunsAux
  rw [if_pos hc]
  rfl

theorem collapseRunsAux_cons_pos_false (p : Char → Bool) (r c : Char) (cs : List Char)
    (hc : p c = true) :
    collapseRunsAux p r false (c :: cs) = r :: collapseRunsAux p r true cs := by
  conv_lhs => unfold collapseRunsAux
  rw [if_pos hc]
  rfl

theorem collapseRunsAux_cons_neg (p : Char → Bool) (r : Char) (b : Bool) (c : Char)
    (cs : List Char) (hc : p c = false) :
    collapseRunsAux p r b (c :: cs) = c :: collapseRunsAux p r false cs := by
  conv_lhs => unfold collapseRunsAux
  rw [if_neg (by simp [hc])]

theorem hyphenAux_head :
    ∀ (l : List Char) (d : Char),
      (collapseRunsAux isHyphen '-' true l).head? = some d → isHyphen d = false
  | [], _, h => by cases h
  | c :: cs, d, h => by
    by_cases hc : isHyphen c = true
    · rw [collapseRunsAux_cons_pos_true _ _ _ _ hc] at h
      exact hyphenAux_head cs d h
    · rw [collapseRunsAux_cons_neg _ _ _ _ _ (by simpa using hc)] at h
      rw [List.head?_cons] at h
      injection h with h
      subst h
      simpa using hc

theorem chainOK_cons (p : Char → Bool) (a : Char) (l : List Char)
    (hhead : ∀ d, l.head? = some d → (p a && p d) = false)
    (hl : chainOK p l = true) : chainOK p (a :: l) = true := by
  cases l with
  | nil => rfl
  | cons b rest =>
    unfold chainOK
    rw [Bool.and_eq_true]
    refine ⟨?_, hl⟩
    have hb := hhead b rfl
    simp [hb]

theorem chainOK_head_pair (p : Char → Bool) (a : Char) (l : List Char)
    (h : chainOK p (a :: l) = true) (d : Char) (hd : l.head? = some d) :
    (p a && p d) = false := by
  cases l with
  | nil => cases hd
  | cons b rest =>
    rw [List.head?_cons] at hd
    injection hd with hd
    subst hd
    unfold chainOK at h
    rw [Bool.and_eq_true] at h
    have h1 := h.1
    rw [Bool.not_eq_true'] at h1
    exact h1

theorem hyphenAux_chain :
    ∀ (l : List Char) (b : Bool),
      chainOK isHyphen (collapseRunsAux isHyphen '-' b l) = true
  | [], b => by cases b <;> rfl
  | c :: cs, b => by
    by_cases hc : isHyphen c = true
    · cases b with
      | true =>
        rw [collapseRunsAux_cons_pos_true _ _ _ _ hc]
        exact hyphenAux_chain cs true
      | false =>
        rw [collapseRunsAux_cons_pos_false _ _ _ _ hc]
        refine chainOK_cons _ _ _ ?_ (hyphenAux_chain cs true)
        intro d hd
        rw [hyphenAux_head cs d hd]
        simp
    · have hcf : isHyphen c = false := by simpa using hc
      rw [collapseRunsAux_cons_neg _ _ _ _ _ hcf]
      refine chainOK_cons _ _ _ ?_ (hyphenAux_chain cs false)
      intro d _
      simp [hcf]

theorem hyphenAux_id :
    ∀ (l : List Char) (b : Bool), chainOK isHyphen l = true →
      (b = true → ∀ d, l.head? = some d → isHyphen d = false) →
      collapseRunsAux isHyphen '-' b l = l
  | [], b, _, _ => by cases b <;> rfl
  | c :: cs, b, hch, hhead => by
    by_cases hc : isHyphen c = true
    · cases b with
      | true =>
        have := hhead rfl c rfl
        rw [hc] at this
        cases this
      | false =>
        rw [collapseRunsAux_cons_pos_false _ _ _ _ hc]
        have hc2 : c = '-' := by simpa [isHyphen] using hc
        rw [hyphenAux_id cs true (chainOK_tail _ _ _ hch)
          (fun _ d hd => by
            have hp := chainOK_head_pair isHyphen c cs hch d hd
            rw [hc] at hp
            simpa using hp)]
        rw [hc2]
    · have hcf : isHyphen c = false := by simpa using hc
      rw [collapseRunsAux_cons_neg _ _ _ _ _ hcf]
      rw [hyphenAux_id cs false (chainOK_tail _ _ _ hch) (fun hb => nomatch hb)]

theorem mem_stripEdgeHyphens (l : List Char) (c : Char) (h : c ∈ stripEdgeHyphens l) :
    c ∈ l := by
  unfold stripEdgeHyphens at h
  rw [List.mem_reverse] at h
  have h2 := (List.dropWhile_suffix _).sublist.subset h
  rw [List.mem_reverse] at h2
  exact (List.dropWhile_suffix _).sublist.subset h2

theorem stripEdgeHyphens_isPre (l : List Char) :
    stripEdgeHyphens l <+: l.dropWhile isHyphen := by
  unfold stripEdgeHyphens
  conv_rhs => rw [← List.reverse_reverse (l.dropWhile isHyphen)]
  exact List.reverse_prefix.mpr (List.dropWhile_suffix _)

theorem stripEdgeHyphens_chainOK (l : List Char) (h : chainOK isHyphen l = true) :
    chainOK isHyphen (stripEdgeHyphens l) = true := by
  obtain ⟨s, hs⟩ := List.dropWhile_suffix (l := l) isHyphen
  have h1 : chainOK isHyphen (l.dropWhile isHyphen) = true := by
    rw [← hs] at h
    exact chainOK_append_right _ s _ h
  obtain ⟨t, ht⟩ := stripEdgeHyphens_isPre l
  rw [← ht] at h1
  exact chainOK_append_left _ _ t h1

theorem stripEdgeHyphens_head (l : List Char) (d : Char)
    (h : (stripEdgeHyphens l).head? = some d) : isHyphen d = false := by
  obtain ⟨t, ht⟩ := stripEdgeHyphens_isPre l
  have h2 : (l.dropWhile isHyphen).head? = some d := by
    rw [← ht]
    cases hse : stripEdgeHyphens l with
    | nil => rw [hse] at h; cases h
    | cons a rest =>
      rw [hse] at h
      rw [List.head?_cons] at h
      simpa using h
  exact head_dropWhile_not _ _ _ h2

theorem stripEdgeHyphens_last (l : List Char) (d : Char)
    (h : (stripEdgeHyphens l).getLast? = some d) : isHyphen d = false := by
  unfold stripEdgeHyphens at h
  rw [List.getLast?_reverse] at h
  exact head_dropWhile_not _ _ _ h

theorem slugKept_keep (t : String) (c : Char) (h : c ∈ slugKept t) : slugKeep c = true :=
  (List.mem_filter.mp h).2

theorem slugCollapsed_mem (t : String) (c : Char) (h : c ∈ slugCollapsed t) :
    slugAlpha c = true ∨ c = '-' := by
  unfold slugCollapsed collapseRuns at h
  rcases collapseRunsAux_mem _ _ _ _ _ h with h1 | ⟨h1, h2⟩
  · exact Or.inr h1
  · rcases collapseRunsAux_mem _ _ _ _ _ h1 with h3 | ⟨h3, h4⟩
    · exact Or.inr h3
    · left
      have hk : slugKeep c = true := slugKept_keep t c h3
      unfold slugKeep at hk
      have h5 : decide (c = '-') = false := by simpa [isHyphen] using h2
      unfold slugAlpha
      rw [Bool.or_eq_true]
      simpa [h4, h5] using hk

theorem slug_char_code (c : Char) (h : slugAlpha c = true ∨ c = '-') :
    (0x30 ≤ c.toNat ∧ c.toNat ≤ 0x39) ∨ (0x61 ≤ c.toNat ∧ c.toNat ≤ 0x7A) ∨
      c.toNat = 0x2D := by
  rcases h with h | h
  · unfold slugAlpha at h
    rw [Bool.or_eq_true] at h
    rcases h with h | h
    · right
      left
      unfold isLowerAlpha at h
      rw [Bool.and_eq_true] at h
      exact ⟨of_decide_eq_true h.1, of_decide_eq_true h.2⟩
    · left
      unfold isDigitChar at h
      rw [Bool.and_eq_true] at h
      exact ⟨of_decide_eq_true h.1, of_decide_eq_true h.2⟩
  · subst h
    right
    right
    rfl

theorem slug_char_not_ws (c : Char) (h : slugAlpha c = true ∨ c = '-') :
    jsWhitespace c = false := by
  have hc := slug_char_code c h
  rw [Bool.eq_false_iff]
  intro hws
  unfold jsWhitespace at hws
  simp only [Bool.or_eq_true, decide_eq_true_eq] at hws
  rcases hws with ((((((h1 | h1) | h1) | h1) | h1) | h1) | h1) <;>
    (subst h1; revert hc; decide)

theorem jsLower_fixed (c : Char) (h : slugAlpha c = true ∨ c = '-') : jsLower c = c := by
  have hc := slug_char_code c h
  unfold jsLower
  rw [if_neg (by simp only [Bool.and_eq_true, decide_eq_true_eq]; omega),
    if_neg (by simp only [Bool.and_eq_true, decide_eq_true_eq, ne_eq, decide_not,
      Bool.not_eq_true', decide_eq_false_iff_not]; omega)]

theorem nfdChar_fixed (c : Char) (h : slugAlpha c = true ∨ c = '-') : nfdChar c = [c] := by
  have hc := slug_char_code c h
  unfold nfdChar
  rw [if_pos (by omega)]

theorem combining_fixed (c : Char) (h : slugAlpha c = true ∨ c = '-') :
    (!isCombiningMark c) = true := by
  have hc := slug_char_code c h
  unfold isCombiningMark
  rw [Bool.not_eq_true']
  simp only [Bool.and_eq_false_iff, decide_eq_false_iff_not]
  omega

theorem slugKeep_fixed (c : Char) (h : slugAlpha c = true ∨ c = '-') :
    slugKeep c = true := by
  unfold slugKeep
  rcases h with h | h
  · unfold slugAlpha at h
    rw [Bool.or_eq_true] at h
    rcases h with h | h <;> simp [h]
  · subst h
    decide

theorem map_id_of_fixed (l : List Char) (f : Char → Char) (h : ∀ c ∈ l, f c = c) :
    l.map f = l :=
  (List.map_congr_left (fun a ha => (h a ha).trans rfl)).trans (List.map_id l)

theorem flatMap_id_of_singleton :
    ∀ (l : List Char) (f : Char → List Char), (∀ c ∈ l, f c = [c]) → l.flatMap f = l
  | [], _, _ => rfl
  | c :: cs, f, h => by
    rw [List.flatMap_cons, h c (List.mem_cons_self c cs),
      flatMap_id_of_singleton cs f (fun d hd => h d (List.mem_cons_of_mem _ hd))]
    rfl

theorem generateSlug_fixed (l : List Char)
    (halpha : ∀ c ∈ l, slugAlpha c = true ∨ c = '-')
    (hchain : chainOK isHyphen l = true)
    (hhead : ∀ d, l.head? = some d → isHyphen d = false)
    (hlast : ∀ d, l.getLast? = some d → isHyphen d = false) :
    generateSlug ⟨l⟩ = ⟨l⟩ := by
  have hno_ws : ∀ c ∈ l, jsWhitespace c = false :=
    fun c hc => slug_char_not_ws c (halpha c hc)
  have h4 : slugKept ⟨l⟩ = l := by
    unfold slugKept
    show ((((l.map jsLower).flatMap nfdChar).filter _).filter _) = l
    rw [map_id_of_fixed l jsLower (fun c hc => jsLower_fixed c (halpha c hc)),
      flatMap_id_of_singleton l nfdChar (fun c hc => nfdChar_fixed c (halpha c hc)),
      List.filter_eq_self.mpr (fun c hc => combining_fixed c (halpha c hc)),
      List.filter_eq_self.mpr (fun c hc => slugKeep_fixed c (halpha c hc))]
  have h6 : slugCollapsed ⟨l⟩ = l := by
    unfold slugCollapsed collapseRuns
    rw [h4, collapseRunsAux_id jsWhitespace '-' l false hno_ws]
    exact hyphenAux_id l false hchain (fun hb => nomatch hb)
  have h7 : stripEdgeHyphens l = l := by
    unfold stripEdgeHyphens
    rw [dropWhile_id_of_head isHyphen l hhead,
      dropWhile_id_of_head isHyphen l.reverse
        (fun d hd => hlast d (by rw [← List.head?_reverse]; exact hd))]
    exact List.reverse_reverse l
  unfold generateSlug
  rw [h6, h7, jsTrim_id_of_no_ws l hno_ws]

theorem generateSlug_data (t : String) :
    (generateSlug t).data = stripEdgeHyphens (slugCollapsed t) := by
  show jsTrim (stripEdgeHyphens (slugCollapsed t)) = _
  exact jsTrim_id_of_no_ws _ (fun c hc =>
    slug_char_not_ws c (slugCollapsed_mem t c (mem_stripEdgeHyphens _ c hc)))

theorem generateSlug_props (t : String) :
    (∀ c ∈ (generateSlug t).data, slugAlpha c = true ∨ c = '-') ∧
    chainOK isHyphen (generateSlug t).data = true ∧
    (∀ d, (generateSlug t).data.head? = some d → isHyphen d = false) ∧
    (∀ d, (generateSlug t).data.getLast? = some d → isHyphen d = false) := by
  rw [generateSlug_data]
  refine ⟨?_, ?_, ?_, ?_⟩
  · exact fun c hc => slugCollapsed_mem t c (mem_stripEdgeHyphens _ c hc)
  · refine stripEdgeHyphens_chainOK _ ?_
    unfold slugCollapsed collapseRuns
    exact hyphenAux_chain _ false
  · exact fun d hd => stripEdgeHyphens_head _ d hd
  · exact fun d hd => stripEdgeHyphens_last _ d hd

/-- C7: `generateSlug` is idempotent — applying it to its own output
returns that output unchanged — and every output either matches the
regular expression `^[a-z0-9]+(-[a-z0-9]+)*$` (nonempty, over `[a-z0-9-]`,
no adjacent hyphens, no hyphen at either end) or is the empty string. -/
theorem C7_slug_idempotent (s : String) :
    generateSlug (generateSlug s) = generateSlug s ∧
    (matchesSlugRegex (generateSlug s).data = true ∨ generateSlug s = "") := by
  obtain ⟨halpha, hchain, hhead, hlast⟩ := generateSlug_props s
  have heta : (⟨(generateSlug s).data⟩ : String) = generateSlug s := by
    cases generateSlug s
    rfl
  constructor
  · have hfix := generateSlug_fixed (generateSlug s).data halpha hchain hhead hlast
    rwa [heta] at hfix
  · by_cases hnil : (generateSlug s).data = []
    · right
      rw [← heta, hnil]
    · left
      unfold matchesSlugRegex
      simp only [Bool.and_eq_true]
      refine ⟨⟨⟨⟨?_, ?_⟩, ?_⟩, ?_⟩, ?_⟩
      · simpa using hnil
      · rw [List.all_eq_true]
        intro c hc
        rcases halpha c hc with h | h
        · simp [h]
        · simp [h]
      · exact hchain
      · cases hh : (generateSlug s).data.head? with
        | none => rfl
        | some d =>
          have hd := hhead d hh
          rw [Bool.eq_false_iff] at hd
          simp only [isHyphen, ne_eq, decide_eq_true_eq] at hd
          simpa using hd
      · cases hh : (generateSlug s).data.getLast? with
        | none => rfl
        | some d =>
          have hd := hlast d hh
          rw [Bool.eq_false_iff] at hd
          simp only [isHyphen, ne_eq, decide_eq_true_eq] at hd
          simpa using hd
